import Mathlib

/-!
Verification of the sermon transcript segmentation pipeline
(`build_ask_pastor_bob_db.py`) and the hybrid search / rerank service
(`reranker_service.py`) of the `church-grok-chat` repository.

Python strings are modelled as Lean `String`s and scanned through their
underlying character lists; Python floats (time offsets, distances,
relevance scores) are modelled as rationals; Python `int()` truncation
is modelled explicitly.
-/

set_option maxRecDepth 100000

namespace APB

/-! ## Python string primitives -/

/-- Characters counted as whitespace by Python `str.split()` / `str.strip()`. -/
def isWs (c : Char) : Bool := c.isWhitespace

/-- Worker for Python `str.split()` with no separator: splits a character
list on runs of whitespace, discarding empty pieces.  `acc` holds the
(reversed) characters of the word currently being read. -/
def splitWsAux : List Char → List Char → List (List Char)
  | [], acc => if acc = [] then [] else [acc.reverse]
  | c :: rest, acc =>
    if isWs c then
      if acc = [] then splitWsAux rest [] else acc.reverse :: splitWsAux rest []
    else splitWsAux rest (c :: acc)

/-- Python `text.split()` (whitespace splitting, empties dropped). -/
def pyWords (s : String) : List (List Char) := splitWsAux s.data []

/-- Python `len(text.split())`: the number of whitespace-delimited words. -/
def wordCount (s : String) : ℕ := (pyWords s).length

/-- The character list of a string with leading and trailing whitespace
removed (Python `str.strip()`). -/
def stripList (l : List Char) : List Char :=
  ((l.dropWhile isWs).reverse.dropWhile isWs).reverse

/-- Python `text.strip()`. -/
def pyStrip (s : String) : String := ⟨stripList s.data⟩

/-- Python `str.lower()` (ASCII case folding suffices for this code base). -/
def pyLower (s : String) : String := ⟨s.data.map Char.toLower⟩

/-- Is the first list a prefix of the second? -/
def startsWith : List Char → List Char → Bool
  | [], _ => true
  | _ :: _, [] => false
  | c :: p, d :: l => c = d && startsWith p l

/-- Does the first list occur as a contiguous sublist of the second? -/
def containsSub (p : List Char) : List Char → Bool
  | [] => startsWith p []
  | l@(_ :: rest) => startsWith p l || containsSub p rest

/-- Python `needle in hay` on strings: substring containment. -/
def pyInB (needle hay : String) : Bool := containsSub needle.data hay.data

/-- Python `" ".join(texts)`. -/
def joinSp (texts : List String) : String :=
  ⟨((texts.map String.data).intersperse [' ']).flatten⟩

/-- Python `int()` applied to a rational: truncation toward zero. -/
def pyInt (q : ℚ) : ℤ := if q < 0 then -(⌊-q⌋) else ⌊q⌋

/-! ## Word-boundary pattern matching

`WORSHIP_KEYWORDS` and `TEACHING_STARTS` in the source are `re` patterns of
the shape `\b( alt | alt | ... )\b` with `re.IGNORECASE`, where every
alternative is a literal phrase up to an optional apostrophe or plural `s`
(expanded below into plain literals) or, for the scripture references of
`TEACHING_STARTS`, a literal followed by one `\d` digit.  `re.search`
succeeds iff some alternative matches at some position with a word
boundary on each side. -/

/-- Python regex `\w` (ASCII range, which covers this code base). -/
def isWordChar (c : Char) : Bool := c.isAlphanum || c = '_'

/-- One expanded regex alternative: a literal, optionally followed by one
digit (`\d`). -/
structure Pat where
  lit : String
  digit : Bool := false
deriving Repr

/-- Match a literal prefix, returning the remainder of the text. -/
def litRem : List Char → List Char → Option (List Char)
  | [], l => some l
  | _ :: _, [] => none
  | c :: p, d :: l => if c = d then litRem p l else none

/-- Match a whole alternative at the head of `l`, returning the remainder. -/
def patRem (p : Pat) (l : List Char) : Option (List Char) :=
  match litRem p.lit.data l with
  | none => none
  | some r =>
    if p.digit then
      match r with
      | [] => none
      | d :: r2 => if d.isDigit then some r2 else none
    else some r

/-- The `\b` following the alternatives: every alternative ends in a word
character, so the next character must be absent or not a word character. -/
def endBoundary : List Char → Bool
  | [] => true
  | c :: _ => !isWordChar c

/-- Does some alternative match at the head of `l` (with closing boundary)? -/
def matchHere (pats : List Pat) (l : List Char) : Bool :=
  pats.any fun p =>
    match patRem p l with
    | some r => endBoundary r
    | none => false

/-- The `\b` preceding the alternatives: the previous character must be
absent or not a word character. -/
def boundaryOk : Option Char → Bool
  | none => true
  | some c => !isWordChar c

/-- Scan every position of the text; `prev` is the character before the
current position, used for the opening `\b` (every alternative starts with
a word character). -/
def searchScan (pats : List Pat) : Option Char → List Char → Bool
  | _, [] => false
  | prev, c :: rest =>
    (boundaryOk prev && matchHere pats (c :: rest)) || searchScan pats (some c) rest

/-- `bool(PATTERN.search(text))` for a case-insensitive alternation of the
given literal alternatives. -/
def regexSearch (pats : List Pat) (text : String) : Bool :=
  searchScan pats none (pyLower text).data

/-- The alternatives of `WORSHIP_KEYWORDS` (source lines 49-56), with the
optional-apostrophe and optional-plural regex sugar expanded. -/
def worshipPats : List Pat :=
  [⟨"welcome", false⟩, ⟨"good morning", false⟩, ⟨"good evening", false⟩,
   ⟨"lets stand", false⟩, ⟨"let\x27s stand", false⟩,
   ⟨"worship team", false⟩,
   ⟨"announcement", false⟩, ⟨"announcements", false⟩,
   ⟨"offering", false⟩, ⟨"next week", false⟩, ⟨"thank you for coming", false⟩,
   ⟨"lets worship", false⟩, ⟨"let\x27s worship", false⟩,
   ⟨"sing with me", false⟩, ⟨"praise team", false⟩, ⟨"band", false⟩,
   ⟨"sign up", false⟩, ⟨"event", false⟩, ⟨"potluck", false⟩,
   ⟨"ladies group", false⟩, ⟨"ladies\x27 group", false⟩,
   ⟨"mens group", false⟩, ⟨"men\x27s group", false⟩,
   ⟨"youth group event", false⟩, ⟨"vacation bible school", false⟩]

/-- The book names of the `in (genesis|...|revelation) \d` alternative of
`TEACHING_STARTS` (source lines 61-67), plural sugar expanded. -/
def bibleBooks : List String :=
  ["genesis", "exodus", "leviticus", "numbers", "deuteronomy", "joshua",
   "judges", "ruth", "samuel", "kings", "chronicles", "ezra", "nehemiah",
   "esther", "job", "psalm", "psalms", "proverb", "proverbs",
   "ecclesiastes", "song of solomon", "isaiah", "jeremiah", "lamentations",
   "ezekiel", "daniel", "hosea", "joel", "amos", "obadiah", "jonah",
   "micah", "nahum", "habakkuk", "zephaniah", "haggai", "zechariah",
   "malachi", "matthew", "mark", "luke", "john", "acts", "romans",
   "corinthians", "galatians", "ephesians", "philippians", "colossians",
   "thessalonians", "timothy", "titus", "philemon", "hebrews", "james",
   "peter", "jude", "revelation"]

/-- The alternatives of `TEACHING_STARTS` (source lines 58-69), with the
optional groups expanded. -/
def teachingPats : List Pat :=
  [⟨"turn with me to", false⟩,
   ⟨"open your bible", false⟩, ⟨"open your bibles", false⟩,
   ⟨"today were look", false⟩, ⟨"today we\x27re look", false⟩,
   ⟨"today were going to look", false⟩, ⟨"today we\x27re going to look", false⟩,
   ⟨"today were gonna look", false⟩, ⟨"today we\x27re gonna look", false⟩,
   ⟨"lets pray", false⟩, ⟨"let\x27s pray", false⟩,
   ⟨"father god", false⟩, ⟨"lord we", false⟩, ⟨"the lord spoke", false⟩] ++
  bibleBooks.map fun b => ⟨"in " ++ b ++ " ", true⟩

/-- `bool(WORSHIP_KEYWORDS.search(text))`. -/
def worshipSearch (text : String) : Bool := regexSearch worshipPats text

/-- `bool(TEACHING_STARTS.search(text))`. -/
def teachingSearch (text : String) : Bool := regexSearch teachingPats text

/-! ## Data model of the indexing pipeline (`build_ask_pastor_bob_db.py`) -/

/-- A transcript segment: `{"text": ..., "start_sec": ...}`. -/
structure Segment where
  text : String
  start_sec : ℚ
deriving DecidableEq, Repr

/-- A retrieval chunk as emitted by `chunk_segments`. -/
structure Chunk where
  text : String
  video_id : String
  youtube_url : String
  title : String
  source_file : String
  start_sec : ℤ
  end_sec : ℤ
  word_count : ℕ
deriving DecidableEq, Repr

def CHUNK_MIN_WORDS : ℕ := 80
def CHUNK_MAX_WORDS : ℕ := 450

/-! ## Teaching-span detection (`is_worship_or_announcement`,
`find_teaching_start`, `filter_segments`, source lines 181-225) -/

/-- `is_worship_or_announcement(text)`: fewer than 3 words, or a worship
keyword matches. -/
def is_worship_or_announcement (text : String) : Bool :=
  if wordCount text < 3 then true else worshipSearch text

/-- First loop of `find_teaching_start`: at index `i`, a teaching-start
match returns `max(0, i-1)`; otherwise a segment after 120 s with more
than 15 words that is not worship/announcement returns `i`. -/
def ftsLoop1 : ℕ → List Segment → Option ℕ
  | _, [] => none
  | i, seg :: rest =>
    if teachingSearch seg.text then some (i - 1)
    else if 120 < seg.start_sec ∧ 15 < wordCount seg.text ∧
            ¬ is_worship_or_announcement seg.text then some i
    else ftsLoop1 (i + 1) rest

/-- Second loop of `find_teaching_start`: first segment after 60 s with
more than 10 words. -/
def ftsLoop2 : ℕ → List Segment → Option ℕ
  | _, [] => none
  | i, seg :: rest =>
    if 60 < seg.start_sec ∧ 10 < wordCount seg.text then some i
    else ftsLoop2 (i + 1) rest

/-- `find_teaching_start(segments)`. -/
def find_teaching_start (segments : List Segment) : ℕ :=
  match ftsLoop1 0 segments with
  | some i => i
  | none =>
    match ftsLoop2 0 segments with
    | some i => i
    | none => 0

/-- The closing phrases scanned for at the end of `filter_segments`. -/
def closingKws : List String :=
  ["thank you for coming", "dismissed", "have a great week",
   "see you next", "god bless you all", "let\x27s close in prayer"]

/-- Does the lowered text contain one of the closing phrases? -/
def hasClosing (text : String) : Bool :=
  closingKws.any fun kw => pyInB kw (pyLower text)

/-- The end-boundary scan of `filter_segments`: walk the indices of
`range(len(teaching) - 1, max(len(teaching) - 20, -1), -1)` — that is
`len-1, len-2, ...` down to `max(len-19, 0)` inclusive, the stop bound
being exclusive — and stop at the first (i.e. latest) segment containing
a closing phrase; default `len`. -/
def endScan (teaching : List Segment) : ℕ :=
  ((((List.range teaching.length).drop (teaching.length - 19)).reverse).find?
      (fun i => hasClosing (((teaching.get? i).map Segment.text).getD ""))).getD
    teaching.length

/-- The per-segment filter at the end of `filter_segments`: drop bare
music/applause markers and short worship/announcement asides. -/
def keepSegment (seg : Segment) : Bool :=
  ¬ (pyStrip seg.text = "[Music]" ∨ pyStrip seg.text = "[Applause]") &&
  ¬ (is_worship_or_announcement seg.text ∧ wordCount seg.text < 12)

/-- `filter_segments(segments)`. -/
def filter_segments (segments : List Segment) : List Segment :=
  if segments = [] then []
  else
    let start_idx := find_teaching_start segments
    let teaching := segments.drop start_idx
    let end_idx := endScan teaching
    (teaching.take end_idx).filter keepSegment

/-! ## Chunker (`chunk_segments`, source lines 232-286) -/

/-- The loop of `chunk_segments`: walks the segments keeping the current
accumulator (`cur` texts, `cw` word count, `cs`/`ce` chunk start/end
seconds), emitting a chunk whenever appending the next segment would cross
`CHUNK_MAX_WORDS` while the accumulator already holds `CHUNK_MIN_WORDS`,
and emitting the final accumulator when it holds at least
`CHUNK_MIN_WORDS / 2` words. -/
def chunkLoop (video_id youtube_url title source_file : String) :
    List Segment → List String → ℕ → ℚ → ℚ → List Chunk
  | [], cur, cw, cs, ce =>
    if cur ≠ [] ∧ CHUNK_MIN_WORDS / 2 ≤ cw then
      [{ text := joinSp cur, video_id, youtube_url, title, source_file,
         start_sec := pyInt cs, end_sec := pyInt ce, word_count := cw }]
    else []
  | seg :: rest, cur, cw, cs, ce =>
    let text := pyStrip seg.text
    if text = "" then chunkLoop video_id youtube_url title source_file rest cur cw cs ce
    else
      let wc := wordCount text
      if CHUNK_MAX_WORDS < cw + wc ∧ CHUNK_MIN_WORDS ≤ cw then
        { text := joinSp cur, video_id, youtube_url, title, source_file,
          start_sec := pyInt cs, end_sec := pyInt ce, word_count := cw } ::
        chunkLoop video_id youtube_url title source_file rest [text] wc seg.start_sec seg.start_sec
      else
        chunkLoop video_id youtube_url title source_file rest (cur ++ [text]) (cw + wc) cs seg.start_sec

/-- Total word count of a segment list (the pre-chunking count computed at
the top of `chunk_segments`). -/
def totalWords (segments : List Segment) : ℕ :=
  (segments.map fun s => wordCount s.text).sum

/-- `chunk_segments(segments, video_id, youtube_url, title, source_file)`. -/
def chunk_segments (segments : List Segment)
    (video_id youtube_url title source_file : String) : List Chunk :=
  match segments with
  | [] => []
  | s0 :: _ =>
    if totalWords segments < CHUNK_MIN_WORDS then []
    else chunkLoop video_id youtube_url title source_file segments [] 0 s0.start_sec s0.start_sec

/-! ## Search service data model (`reranker_service.py`) -/

/-- A result entry as handled by the search service: the union of the keys
of the pinned-story dictionaries and of the candidate dictionaries built in
`search_and_rerank` (fields absent from a given dictionary are `""`/`0`). -/
structure Cand where
  text : String := ""
  title : String := ""
  video_id : String := ""
  start_time : String := ""
  url : String := ""
  timestamped_url : String := ""
  vector_dist : ℚ := 0
  source : String := ""
  page : String := ""
  topics : String := ""
  summary : String := ""
  emotional_tone : String := ""
  youtube_url : String := ""
  rerank_score : ℚ := 0
deriving DecidableEq, Repr

/-- One pinned story of `PINNED_STORIES`: trigger keywords plus fixed
results. -/
structure Story where
  keywords : List String
  results : List Cand
deriving Repr

/-- The `"becky_story"` entry of `PINNED_STORIES`. -/
def beckyStory : Story :=
  { keywords :=
        ["becky", "wife", "how did bob meet", "how did pastor bob meet",
         "how they met", "bob and becky", "bob meet becky", "married",
         "engagement", "how bob met", "love story", "bob\x27s wife",
         "pastor bob\x27s wife", "when did bob get married",
         "bob get married", "who is bob married to", "who did bob marry",
         "becky kopeny"],
      results :=
        [{ text := "Pastor Bob shares the full story of how he met Becky - from meeting her briefly at church, to God putting her name in his mind at the intersection of Chapman and Kramer while driving to seminary, to the Lord revealing she had gotten engaged the night before, to God telling him to propose three weeks after their first date.",
           title := "How To Press On (03/26/2017)",
           url := "https://www.youtube.com/watch?v=sGIJP13TxPQ",
           timestamped_url := "https://www.youtube.com/watch?v=sGIJP13TxPQ&t=2382s",
           start_time := "39:42",
           video_id := "sGIJP13TxPQ",
           source := "sermon",
           rerank_score := 1 },
         { text := "Pastor Bob shares that when he first met Becky she was engaged to be married. They were just friends and he encouraged her spiritually. He shares about caring for someone and not knowing how they feel.",
           title := "Who Cares? (12/10/2017)",
           url := "https://www.youtube.com/watch?v=BRd6nCCTLKI",
           timestamped_url := "https://www.youtube.com/watch?v=BRd6nCCTLKI&t=2014s",
           start_time := "33:34",
           video_id := "BRd6nCCTLKI",
           source := "sermon",
           rerank_score := mkRat 19 20 }] }

/-- The `"testimony"` entry of `PINNED_STORIES`. -/
def testimonyStory : Story :=
  { keywords :=
        ["testimony", "how was bob saved", "when was bob saved",
         "how did bob get saved", "bob\x27s testimony", "pastor bob saved",
         "bob come to christ", "bob receive christ",
         "when did bob become a christian", "how did bob become",
         "bob\x27s salvation", "bob get saved", "pastor bob\x27s testimony",
         "bob become a believer", "how bob got saved", "when bob got saved",
         "bob\x27s faith journey", "how did pastor bob come to know",
         "jeff maples", "gene schaeffer", "jr high camp",
         "junior high camp", "8th grade"],
      results :=
        [{ text := "Pastor Bob shares his testimony of how he received Christ. Two men - Jeff Maples and Gene Schaeffer, who were in their 30s - shared Christ with him at a Jr. High church camp when he was 13. His friend Fred invited him. They shared for about five minutes and asked if he would receive Christ. He said yes. He thanks God for the unbroken chain of people who shared the gospel down to him.",
           title := "Be Faithful - 2 Timothy 1",
           url := "https://www.youtube.com/watch?v=72R6uNs2ka4",
           timestamped_url := "https://www.youtube.com/watch?v=72R6uNs2ka4",
           start_time := "",
           video_id := "72R6uNs2ka4",
           source := "sermon",
           rerank_score := 1 }] }

/-- The static `PINNED_STORIES` table (source lines 42-92), in dictionary
insertion order. -/
def PINNED_STORIES : List (String × Story) :=
  [("becky_story", beckyStory), ("testimony", testimonyStory)]

/-- The query normalisation at the top of `detect_pinned_stories`:
`query.lower().replace("'", "'")` (the `replace` maps the ASCII apostrophe
to itself, hence is the identity on every character). -/
def normalizeQuery (query : String) : String :=
  ⟨(pyLower query).data.map fun c => if c = '\x27' then '\x27' else c⟩

/-- One step of the result loop in `detect_pinned_stories`: append a
result unless its `video_id` was already collected. -/
def addStep (acc : List Cand × List String) (r : Cand) : List Cand × List String :=
  if r.video_id ∈ acc.2 then acc else (acc.1 ++ [r], acc.2 ++ [r.video_id])

/-- Inner loop of `detect_pinned_stories`: append a matched story's fixed
results, skipping any whose `video_id` was already collected. -/
def addPinned (acc : List Cand × List String) (rs : List Cand) :
    List Cand × List String :=
  rs.foldl addStep acc

/-- Does a story match the normalised query (some keyword is a substring)? -/
def storyMatches (q : String) (st : Story) : Bool :=
  st.keywords.any fun kw => pyInB kw q

/-- One step of the story loop in `detect_pinned_stories`: a story whose
keywords match contributes its results (the `break` after the first
matching keyword makes each story contribute at most once). -/
def detectStep (q : String) (acc : List Cand × List String) (st : String × Story) :
    List Cand × List String :=
  if storyMatches q st.2 then addPinned acc st.2.results else acc

/-- `detect_pinned_stories(query)`, returning `(results, seen_vids)`. -/
def detect_pinned_stories (query : String) : List Cand × List String :=
  PINNED_STORIES.foldl (detectStep (normalizeQuery query)) ([], [])

/-! ## Retrieval, deduplication and reranking (`search_and_rerank`,
source lines 189-249) -/

/-- The metadata dictionary of one retrieved item; every field read with
`meta.get(key, '')` is a plain string (`""` standing for a missing key),
while `timestamped_url` falls back to `url` and is kept optional. -/
structure Meta where
  title : String := ""
  video_id : String := ""
  start_time : String := ""
  url : String := ""
  timestamped_url : Option String := none
  page : String := ""
  topics : String := ""
  summary : String := ""
  emotional_tone : String := ""
  youtube_url : String := ""
deriving Repr

/-- One raw nearest-neighbour hit returned by the vector store for the
query: document text, metadata and vector distance. -/
structure RawHit where
  text : String := ""
  meta : Meta := {}
  dist : ℚ := 0
deriving Repr

/-- The candidate dictionary built from one raw hit. -/
def mkCand (source_type : String) (h : RawHit) : Cand :=
  { text := h.text,
    title := h.meta.title,
    video_id := h.meta.video_id,
    start_time := h.meta.start_time,
    url := h.meta.url,
    timestamped_url := h.meta.timestamped_url.getD h.meta.url,
    vector_dist := h.dist,
    source := source_type,
    page := h.meta.page,
    topics := h.meta.topics,
    summary := h.meta.summary,
    emotional_tone := h.meta.emotional_tone,
    youtube_url := h.meta.youtube_url }

/-- The deduplication key: `text[:200]`. -/
def dedupKey (text : String) : List Char := text.data.take 200

/-- The candidate-building loop of `search_and_rerank`: walk the raw hits
in retrieval order, skipping any hit whose first 200 text characters were
already seen. -/
def buildCands (source_type : String) (seen : List (List Char)) :
    List RawHit → List Cand
  | [] => []
  | h :: rest =>
    if dedupKey h.text ∈ seen then buildCands source_type seen rest
    else mkCand source_type h :: buildCands source_type (dedupKey h.text :: seen) rest

/-- The reranking model as an external collaborator: given the
`(query, text)` pairs it either raises (`none`) or returns one score per
pair, each score a real number (`some q`) or NaN (`none`). -/
def RerankFn : Type := List (String × String) → Option (List (Option ℚ))

/-- Fallback scoring from raw retrieval similarity: `1 - vector_dist`. -/
def fallbackScore (c : Cand) : Cand := { c with rerank_score := 1 - c.vector_dist }

/-- Store one reranker score on a candidate; NaN is substituted with the
fallback score. -/
def setScore (c : Cand) (s : Option ℚ) : Cand :=
  match s with
  | none => fallbackScore c
  | some v => { c with rerank_score := v }

/-- Scoring step of `search_and_rerank`: on a reranker exception (or a
score list too short to index, which raises inside the same `try`), every
candidate falls back to `1 - vector_dist`; otherwise scores are applied
pairwise with NaN substitution. -/
def applyRerank (out : Option (List (Option ℚ))) (cands : List Cand) : List Cand :=
  match out with
  | none => cands.map fallbackScore
  | some scores =>
    if cands.length ≤ scores.length then List.zipWith setScore cands scores
    else cands.map fallbackScore

/-- Stable insertion into a list sorted by descending `rerank_score`:
the inserted element (originally earlier) goes before later elements of
equal score. -/
def insertDesc (c : Cand) : List Cand → List Cand
  | [] => [c]
  | d :: l => if c.rerank_score ≥ d.rerank_score then c :: d :: l else d :: insertDesc c l

/-- `candidates.sort(key=..., reverse=True)`: a stable descending sort by
`rerank_score`. -/
def sortDesc : List Cand → List Cand
  | [] => []
  | c :: l => insertDesc c (sortDesc l)

/-- The `(query, candidate-text)` pairs handed to the reranker. -/
def mkPairs (query : String) (cands : List Cand) : List (String × String) :=
  cands.map fun c => (query, c.text)

/-- `search_and_rerank(query, collection, n_candidates, n_results,
source_type)`.  The collection is modelled by its response to this query:
`none` when the collection object is `None`, otherwise the raw hit list
(at most `n_candidates` items, already applied by the store). -/
def search_and_rerank (query : String) (collection : Option (List RawHit))
    (rr : RerankFn) (n_candidates n_results : ℕ) (source_type : String) :
    List Cand :=
  match collection with
  | none => []
  | some hits =>
    let cands := buildCands source_type [] hits
    if cands = [] then []
    else (sortDesc (applyRerank (rr (mkPairs query cands)) cands)).take n_results

/-! ## Quality filter and the `/search` route (source lines 271-314, 416-430) -/

/-- The refrain literals of the `\b(la la|glory glory|praise him praise
him|hallelujah hallelujah)\b` pattern, with their lengths. -/
def refrainPats : List Pat :=
  [⟨"la la", false⟩, ⟨"glory glory", false⟩,
   ⟨"praise him praise him", false⟩, ⟨"hallelujah hallelujah", false⟩]

/-- Worker for the refrain count, structurally recursive on a fuel bound:
every step consumes at least one character, so fuel equal to the text
length never runs out before the text does. -/
def refrainCountAux : ℕ → Option Char → List Char → ℕ
  | 0, _, _ => 0
  | _, _, [] => 0
  | fuel + 1, prev, c :: rest =>
    if boundaryOk prev ∧ matchHere refrainPats (c :: rest) then
      if (litRem ("la la").data (c :: rest)).isSome ∧ endBoundary ((c :: rest).drop 5) then
        1 + refrainCountAux fuel (some 'a') (rest.drop 4)
      else if (litRem ("glory glory").data (c :: rest)).isSome ∧
          endBoundary ((c :: rest).drop 11) then
        1 + refrainCountAux fuel (some 'y') (rest.drop 10)
      else if (litRem ("praise him praise him").data (c :: rest)).isSome ∧
          endBoundary ((c :: rest).drop 21) then
        1 + refrainCountAux fuel (some 'm') (rest.drop 20)
      else
        1 + refrainCountAux fuel (some 'h') (rest.drop 20)
    else refrainCountAux fuel (some c) rest

/-- `len(re.findall(...))` for the refrain pattern: count non-overlapping
boundary-delimited matches scanning left to right. -/
def refrainCount (prev : Option Char) (l : List Char) : ℕ :=
  refrainCountAux l.length prev l

/-- `is_worship_content(text, title)` (source lines 416-430). -/
def is_worship_content (text title : String) : Bool :=
  let text_lower := pyLower text
  let title_lower := pyLower title
  if title_lower = "unknown sermon" ∨ title_lower = "unknown" ∨ title_lower = "" then true
  else if (["worship song", "hymn", "music video", "singing", "choir"].any
      fun w => pyInB w title_lower) then true
  else if 2 < refrainCount none text_lower.data then true
  else if text_lower.length < 100 then true
  else false

/-- The external world of one `/search` request: the three collections
(`none` when unavailable) and the reranking model. -/
structure SearchEnv where
  sermon : Option (List RawHit) := none
  illustration : Option (List RawHit) := none
  website : Option (List RawHit) := none
  rr : RerankFn := fun _ => none

/-- The response body of `/search`. -/
structure SearchResponse where
  results : List Cand
  pinned_count : ℕ

/-- The body of the `/search` route for a non-empty query: pinned results
first, then the sermon pool (deduplicated against pinned video ids and
filtered for worship content), then the illustration and website pools
(with their hard-coded candidate/result counts, and no deduplication
against pinned entries). -/
def searchBody (env : SearchEnv) (query search_type : String)
    (n_results n_candidates : ℕ) : SearchResponse :=
  let pd := detect_pinned_stories query
  let pinned := pd.1
  let pinned_vids := pd.2
  let sermonPart :=
    if (search_type = "all" ∨ search_type = "sermons") ∧ env.sermon.isSome then
      ((search_and_rerank query env.sermon env.rr n_candidates n_results "sermon").filter
          fun r => decide (r.video_id ∉ pinned_vids)).filter
        fun r => ! is_worship_content r.text r.title
    else []
  let illPart :=
    if (search_type = "all" ∨ search_type = "illustrations") ∧ env.illustration.isSome then
      search_and_rerank query env.illustration env.rr 10 3 "illustration"
    else []
  let webPart :=
    if (search_type = "all" ∨ search_type = "website") ∧ env.website.isSome then
      search_and_rerank query env.website env.rr 10 3 "website"
    else []
  { results := pinned ++ sermonPart ++ illPart ++ webPart,
    pinned_count := pinned.length }

/-- The `/search` route: an empty query is rejected with a client error
(`none`); otherwise the response body is produced. -/
def search (env : SearchEnv) (query search_type : String)
    (n_results n_candidates : ℕ) : Option SearchResponse :=
  if query = "" then none
  else some (searchBody env query search_type n_results n_candidates)

/-! ## Concrete inputs used in counterexamples and witnesses -/

/-- A text of `n` one-letter words. -/
def mkText (n : ℕ) (c : Char) : String := ⟨(List.replicate n c).intersperse ' '⟩

/-- Two segments of 500 and 80 words: the first closed chunk carries 500
words, above `CHUNK_MAX_WORDS`. -/
def segsC1 : List Segment := [⟨mkText 500 'a', 0⟩, ⟨mkText 80 'b', 1⟩]

/-- A small well-behaved two-segment document (total 85 words). -/
def segsW1 : List Segment := [⟨mkText 40 'a', 0⟩, ⟨mkText 45 'b', 2⟩]

/-- A single short segment (2 words). -/
def segsW2 : List Segment := [⟨"hi there", 0⟩]

/-- Two sorted segments of 50 words each. -/
def segsW7 : List Segment := [⟨mkText 50 'a', 0⟩, ⟨mkText 50 'b', 3⟩]

/-- A 412-word segment followed by a 39-word trailer: the trailer is below
`CHUNK_MIN_WORDS / 2` when the last chunk closes and is discarded. -/
def segsC9 : List Segment := [⟨mkText 412 'a', 0⟩, ⟨mkText 39 'z', 5⟩]

/-- Two pattern-free segments where the second sits beyond the 120 s
fallback threshold with more than 15 words. -/
def segsC4 : List Segment :=
  [⟨"the morning light was bright here", 0⟩,
   ⟨"we will continue our verse by verse study of the scriptures together as friends this morning", 130⟩]

/-- One early pattern-free segment. -/
def segsW4 : List Segment := [⟨"alpha beta gamma", 10⟩]

/-- Two texts sharing their first 150 characters but differing at
character 150, hence with distinct 200-character dedup keys. -/
def t150b : String := ⟨List.replicate 150 'a' ++ ['b']⟩

def t150c : String := ⟨List.replicate 150 'a' ++ ['c']⟩

def hitsC5 : List RawHit := [{ text := t150b }, { text := t150c }]

/-- Three raw hits, the first two with identical texts. -/
def hitsW5 : List RawHit := [{ text := "dup" }, { text := "dup" }, { text := "other" }]

/-- Two distinct raw hits for the reranker-degradation witness. -/
def hitsW6 : List RawHit :=
  [{ text := "first passage", dist := mkRat 1 10 },
   { text := "second passage", dist := mkRat 1 5 }]

/-- A reranking model that always raises. -/
def rrFail : RerankFn := fun _ => none

/-- An environment whose illustration pool returns a hit carrying the same
`video_id` as the first pinned becky result. -/
def envC3 : SearchEnv :=
  { illustration := some [{ text := "x", meta := { video_id := "sGIJP13TxPQ" } }],
    rr := rrFail }

/-- An environment whose sermon pool returns one quality candidate which
the reranking model scores at 0.99, above the 0.95 pinned score. -/
def envC8 : SearchEnv :=
  { sermon := some [{ text := ⟨List.replicate 120 'x'⟩,
                      meta := { title := "Grace", video_id := "vidX" },
                      dist := 0 }],
    rr := fun _ => some [some (mkRat 99 100)] }

/-! ## Helper lemmas: word splitting and stripping -/

theorem splitWsAux_dropWhile (l : List Char) :
    splitWsAux (l.dropWhile isWs) [] = splitWsAux l [] := by
  induction l with
  | nil => rfl
  | cons c rest ih =>
    by_cases h : isWs c
    · rw [List.dropWhile_cons]
      simp only [h, if_true, ih]
      simp [splitWsAux, h]
    · rw [List.dropWhile_cons]
      simp [h]

theorem splitWsAux_allWs : ∀ (w : List Char), (∀ c ∈ w, isWs c = true) →
    ∀ acc, splitWsAux w acc = splitWsAux [] acc := by
  intro w
  induction w with
  | nil => intro _ _; rfl
  | cons c rest ih =>
    intro hw acc
    have hc : isWs c = true := hw c (List.mem_cons_self c rest)
    have ihr := ih (fun x hx => hw x (List.mem_cons_of_mem c hx)) []
    by_cases ha : acc = ([] : List Char)
    · subst ha
      simp only [splitWsAux, hc, if_true]
      simpa [splitWsAux] using ihr
    · simp only [splitWsAux, hc, if_true, ha, if_false]
      simp [splitWsAux] at ihr
      simp [splitWsAux, ha, ihr]

theorem splitWsAux_append_ws : ∀ (l w : List Char) (acc : List Char),
    (∀ c ∈ w, isWs c = true) → splitWsAux (l ++ w) acc = splitWsAux l acc := by
  intro l
  induction l with
  | nil => intro w acc hw; simpa using splitWsAux_allWs w hw acc
  | cons c rest ih =>
    intro w acc hw
    by_cases hc : isWs c <;> by_cases ha : acc = ([] : List Char) <;>
      simp [splitWsAux, hc, ha, ih _ _ hw]

theorem stripList_words (l : List Char) :
    splitWsAux (stripList l) [] = splitWsAux l [] := by
  have hm : (((l.dropWhile isWs).reverse.dropWhile isWs).reverse ++
        ((l.dropWhile isWs).reverse.takeWhile isWs).reverse) = l.dropWhile isWs := by
    rw [← List.reverse_append, List.takeWhile_append_dropWhile, List.reverse_reverse]
  have hw : ∀ c ∈ ((l.dropWhile isWs).reverse.takeWhile isWs).reverse, isWs c = true := by
    intro c hcmem
    exact List.mem_takeWhile_imp (List.mem_reverse.mp hcmem)
  calc splitWsAux (stripList l) []
      = splitWsAux (((l.dropWhile isWs).reverse.dropWhile isWs).reverse ++
          ((l.dropWhile isWs).reverse.takeWhile isWs).reverse) [] :=
        (splitWsAux_append_ws _ _ [] hw).symm
    _ = splitWsAux (l.dropWhile isWs) [] := by rw [hm]
    _ = splitWsAux l [] := splitWsAux_dropWhile l

theorem wordCount_strip (s : String) : wordCount (pyStrip s) = wordCount s := by
  show (splitWsAux (stripList s.data) []).length = (splitWsAux s.data []).length
  rw [stripList_words]

/-! ## Helper lemmas: `pyInt` truncation -/

theorem pyInt_mono {a b : ℚ} (h : a ≤ b) : pyInt a ≤ pyInt b := by
  unfold pyInt
  split_ifs with ha hb hb
  · have : -b ≤ -a := by linarith
    have := Int.floor_le_floor this
    omega
  · have h1 : (0 : ℤ) ≤ ⌊-a⌋ := Int.floor_nonneg.mpr (by linarith)
    have h2 : (0 : ℤ) ≤ ⌊b⌋ := Int.floor_nonneg.mpr (by linarith)
    omega
  · linarith
  · exact Int.floor_le_floor h

/-! ## Helper lemmas: the chunking loop -/

theorem chunkLoop_word_bounds (v u t f : String) :
    ∀ (segs : List Segment) (cur : List String) (cw : ℕ) (cs ce : ℚ),
    cw ≤ CHUNK_MAX_WORDS →
    (∀ s ∈ segs, wordCount s.text ≤ CHUNK_MAX_WORDS - CHUNK_MIN_WORDS + 1) →
    ∀ c ∈ chunkLoop v u t f segs cur cw cs ce,
      CHUNK_MIN_WORDS / 2 ≤ c.word_count ∧ c.word_count ≤ CHUNK_MAX_WORDS := by
  intro segs
  induction segs with
  | nil =>
    intro cur cw cs ce hcw _ c hc
    simp only [chunkLoop] at hc
    split_ifs at hc with hcond
    · simp only [List.mem_singleton] at hc
      subst hc
      exact ⟨hcond.2, hcw⟩
    · simp at hc
  | cons seg rest ih =>
    intro cur cw cs ce hcw hseg c hc
    have hwc : wordCount (pyStrip seg.text) ≤ CHUNK_MAX_WORDS - CHUNK_MIN_WORDS + 1 := by
      rw [wordCount_strip]
      exact hseg seg (List.mem_cons_self seg rest)
    have hrest : ∀ s ∈ rest, wordCount s.text ≤ CHUNK_MAX_WORDS - CHUNK_MIN_WORDS + 1 :=
      fun s hs => hseg s (List.mem_cons_of_mem seg hs)
    simp only [chunkLoop] at hc
    split_ifs at hc with h1 h2
    · exact ih cur cw cs ce hcw hrest c hc
    · rcases List.mem_cons.mp hc with hc0 | hcr
      · subst hc0
        have hmin : CHUNK_MIN_WORDS = 80 := rfl
        have h22 := h2.2
        exact ⟨by show CHUNK_MIN_WORDS / 2 ≤ cw; omega, hcw⟩
      · refine ih _ _ _ _ ?_ hrest c hcr
        have hmax : CHUNK_MAX_WORDS = 450 := rfl
        have hmin : CHUNK_MIN_WORDS = 80 := rfl
        have hd : CHUNK_MAX_WORDS - CHUNK_MIN_WORDS = 370 := rfl
        omega
    · refine ih _ _ _ _ ?_ hrest c hc
      have hmax : CHUNK_MAX_WORDS = 450 := rfl
      have hmin : CHUNK_MIN_WORDS = 80 := rfl
      have hd : CHUNK_MAX_WORDS - CHUNK_MIN_WORDS = 370 := rfl
      omega

theorem chunkLoop_word_lower (v u t f : String) :
    ∀ (segs : List Segment) (cur : List String) (cw : ℕ) (cs ce : ℚ),
    ∀ c ∈ chunkLoop v u t f segs cur cw cs ce,
      CHUNK_MIN_WORDS / 2 ≤ c.word_count := by
  intro segs
  induction segs with
  | nil =>
    intro cur cw cs ce c hc
    simp only [chunkLoop] at hc
    split_ifs at hc with hcond
    · simp only [List.mem_singleton] at hc
      subst hc
      exact hcond.2
    · simp at hc
  | cons seg rest ih =>
    intro cur cw cs ce c hc
    simp only [chunkLoop] at hc
    split_ifs at hc with h1 h2
    · exact ih cur cw cs ce c hc
    · rcases List.mem_cons.mp hc with hc0 | hcr
      · subst hc0
        have hmin : CHUNK_MIN_WORDS = 80 := rfl
        have h22 := h2.2
        show CHUNK_MIN_WORDS / 2 ≤ cw
        omega
      · exact ih _ _ _ _ c hcr
    · exact ih _ _ _ _ c hc

/-! ## Claim theorems: chunker (C1, C2, C9) -/

/-- C2: for every source document whose segments' total word count is
below `MIN_WORDS` (80), `chunk_segments` emits zero chunks. -/
theorem chunker_short_doc_empty (segments : List Segment)
    (v u t f : String) (h : totalWords segments < CHUNK_MIN_WORDS) :
    chunk_segments segments v u t f = [] := by
  cases segments with
  | nil => rfl
  | cons s0 rest => simp [chunk_segments, h]

/-- C2 witness: a 2-word document yields no chunks. -/
theorem chunker_short_doc_empty_witness :
    totalWords segsW2 < CHUNK_MIN_WORDS ∧ chunk_segments segsW2 "v" "u" "t" "f" = [] :=
  ⟨by decide, chunker_short_doc_empty segsW2 "v" "u" "t" "f" (by decide)⟩

/-- C1 (amended): every chunk emitted by `chunk_segments` — for any input
whatsoever — has `word_count ≥ MIN_WORDS / 2` (40); and for a document of
total word count at least `MIN_WORDS` in which every segment holds at
most `MAX_WORDS - MIN_WORDS + 1` (371) words, every emitted chunk (the
last included) also has `word_count ≤ MAX_WORDS`.  The upper bound as
originally claimed (without the per-segment hypothesis) is refuted by
`chunk_oversized_nonlast_cex`. -/
theorem chunk_word_bounds (segments : List Segment) (v u t f : String) :
    (∀ c ∈ chunk_segments segments v u t f, CHUNK_MIN_WORDS / 2 ≤ c.word_count) ∧
    (CHUNK_MIN_WORDS ≤ totalWords segments →
      (∀ s ∈ segments, wordCount s.text ≤ CHUNK_MAX_WORDS - CHUNK_MIN_WORDS + 1) →
      ∀ c ∈ chunk_segments segments v u t f, c.word_count ≤ CHUNK_MAX_WORDS) := by
  constructor
  · cases segments with
    | nil => intro c hc; simp [chunk_segments] at hc
    | cons s0 rest =>
      intro c hc
      rw [chunk_segments] at hc
      split_ifs at hc with hshort
      · simp at hc
      · exact chunkLoop_word_lower v u t f (s0 :: rest) [] 0 s0.start_sec s0.start_sec c hc
  · intro htot hseg
    cases segments with
    | nil => intro c hc; simp [chunk_segments] at hc
    | cons s0 rest =>
      intro c hc
      rw [chunk_segments] at hc
      split_ifs at hc with hshort
      · simp at hc
      · exact (chunkLoop_word_bounds v u t f (s0 :: rest) [] 0 s0.start_sec s0.start_sec
          (Nat.zero_le _) hseg c hc).2

/-- C1 counterexample: a 500-word segment followed by an 80-word segment
has total word count above `MIN_WORDS`, yet the first emitted chunk — not
the last one — carries 500 words, above `MAX_WORDS`. -/
theorem chunk_oversized_nonlast_cex :
    CHUNK_MIN_WORDS ≤ totalWords segsC1 ∧
    (chunk_segments segsC1 "v" "u" "t" "f").map Chunk.word_count = [500, 80] ∧
    ¬ (∀ c ∈ (chunk_segments segsC1 "v" "u" "t" "f").dropLast,
        c.word_count ≤ CHUNK_MAX_WORDS) := by
  refine ⟨by decide, by decide, ?_⟩
  intro h
  have := h { text := joinSp [mkText 500 'a'], video_id := "v", youtube_url := "u",
              title := "t", source_file := "f", start_sec := 0, end_sec := 0,
              word_count := 500 } (by decide)
  revert this
  decide

/-- C1 witness: an 85-word document of two small segments; both bounds
hold for every emitted chunk. -/
theorem chunk_word_bounds_witness :
    CHUNK_MIN_WORDS ≤ totalWords segsW1 ∧
    ((segsW1.all fun s =>
        wordCount s.text ≤ CHUNK_MAX_WORDS - CHUNK_MIN_WORDS + 1) = true) ∧
    ((chunk_segments segsW1 "v" "u" "t" "f").all fun c =>
        CHUNK_MIN_WORDS / 2 ≤ c.word_count ∧ c.word_count ≤ CHUNK_MAX_WORDS) = true := by
  refine ⟨by decide, by decide, ?_⟩
  have h := chunk_word_bounds segsW1 "v" "u" "t" "f"
  have hhi := h.2 (by decide) (by decide)
  rw [List.all_eq_true]
  intro c hc
  exact decide_eq_true ⟨h.1 c hc, hhi c hc⟩

/-- C9: a document (total 451 words ≥ `MIN_WORDS`) whose trailing 39-word
accumulator is below `MIN_WORDS / 2` after the only chunk closes: the
trailing segment's text appears in no emitted chunk. -/
theorem chunk_trailing_discarded :
    CHUNK_MIN_WORDS ≤ totalWords segsC9 ∧
    wordCount (mkText 39 'z') < CHUNK_MIN_WORDS / 2 ∧
    (chunk_segments segsC9 "v" "u" "t" "f").map Chunk.word_count = [412] ∧
    ((chunk_segments segsC9 "v" "u" "t" "f").all fun c =>
        ! pyInB "z" c.text) = true := by
  refine ⟨by decide, by decide, by decide, by decide⟩

/-! ## Claim theorems: chunk time provenance (C7) -/

theorem chunkLoop_time (v u t f : String) :
    ∀ (segs : List Segment) (cur : List String) (cw : ℕ) (cs ce : ℚ),
    List.Pairwise (fun a b : Segment => a.start_sec ≤ b.start_sec) segs →
    (∀ s ∈ segs, ce ≤ s.start_sec) → cs ≤ ce →
    (∀ c ∈ chunkLoop v u t f segs cur cw cs ce,
        pyInt cs ≤ c.start_sec ∧ c.start_sec ≤ c.end_sec) ∧
    List.Chain' (fun c d : Chunk => c.start_sec ≤ d.start_sec)
      (chunkLoop v u t f segs cur cw cs ce) := by
  intro segs
  induction segs with
  | nil =>
    intro cur cw cs ce _ _ hce
    constructor
    · intro c hc
      simp only [chunkLoop] at hc
      split_ifs at hc with hcond
      · simp only [List.mem_singleton] at hc
        subst hc
        exact ⟨le_refl _, pyInt_mono hce⟩
      · simp at hc
    · simp only [chunkLoop]
      split_ifs with hcond <;> simp
  | cons seg rest ih =>
    intro cur cw cs ce hsort hge hce
    have hsr : List.Pairwise (fun a b : Segment => a.start_sec ≤ b.start_sec) rest :=
      (List.pairwise_cons.mp hsort).2
    have hsegle : ∀ s ∈ rest, seg.start_sec ≤ s.start_sec :=
      (List.pairwise_cons.mp hsort).1
    have hceseg : ce ≤ seg.start_sec := hge seg (List.mem_cons_self seg rest)
    simp only [chunkLoop]
    split_ifs with h1 h2
    · exact ih cur cw cs ce hsr (fun s hs => le_trans hceseg (hsegle s hs)) hce
    · have hrec := ih [pyStrip seg.text] (wordCount (pyStrip seg.text))
        seg.start_sec seg.start_sec hsr hsegle (le_refl _)
      have hcs : cs ≤ seg.start_sec := le_trans hce hceseg
      constructor
      · intro c hc
        rcases List.mem_cons.mp hc with hc0 | hcr
        · subst hc0
          exact ⟨le_refl _, pyInt_mono hce⟩
        · rcases hrec.1 c hcr with ⟨hc1, hc2⟩
          exact ⟨le_trans (pyInt_mono hcs) hc1, hc2⟩
      · rw [List.chain'_cons']
        refine ⟨?_, hrec.2⟩
        intro d hd
        have hdm : d ∈ chunkLoop v u t f rest [pyStrip seg.text]
            (wordCount (pyStrip seg.text)) seg.start_sec seg.start_sec :=
          List.mem_of_mem_head? hd
        exact le_trans (pyInt_mono hcs) (hrec.1 d hdm).1
    · exact ih (cur ++ [pyStrip seg.text]) (cw + wordCount (pyStrip seg.text))
        cs seg.start_sec hsr hsegle (le_trans hce hceseg)

/-- C7: for a segment list ordered by start offset, every emitted chunk
satisfies `start_sec ≤ end_sec`, and the chunk start offsets are
monotonically non-decreasing in emission order. -/
theorem chunk_time_monotone (segments : List Segment) (v u t f : String)
    (hsort : List.Pairwise (fun a b : Segment => a.start_sec ≤ b.start_sec) segments) :
    (∀ c ∈ chunk_segments segments v u t f, c.start_sec ≤ c.end_sec) ∧
    List.Chain' (fun c d : Chunk => c.start_sec ≤ d.start_sec)
      (chunk_segments segments v u t f) := by
  cases segments with
  | nil => exact ⟨fun c hc => by simp [chunk_segments] at hc, by simp [chunk_segments]⟩
  | cons s0 rest =>
    rw [chunk_segments]
    split_ifs with hshort
    · exact ⟨fun c hc => by simp at hc, by simp⟩
    · have hge : ∀ s ∈ s0 :: rest, s0.start_sec ≤ s.start_sec := by
        intro s hs
        rcases List.mem_cons.mp hs with h | h
        · subst h; exact le_refl _
        · exact (List.pairwise_cons.mp hsort).1 s h
      have h := chunkLoop_time v u t f (s0 :: rest) [] 0 s0.start_sec s0.start_sec
        hsort hge (le_refl _)
      exact ⟨fun c hc => (h.1 c hc).2, h.2⟩

/-- C7 witness: two sorted 50-word segments. -/
theorem chunk_time_monotone_witness :
    List.Pairwise (fun a b : Segment => a.start_sec ≤ b.start_sec) segsW7 ∧
    List.Chain' (fun c d : Chunk => c.start_sec ≤ d.start_sec)
      (chunk_segments segsW7 "v" "u" "t" "f") :=
  ⟨by decide, (chunk_time_monotone segsW7 "v" "u" "t" "f" (by decide)).2⟩

/-! ## Helper lemmas: teaching-span detection -/

theorem ftsLoop1_lt : ∀ (segs : List Segment) (i j : ℕ),
    ftsLoop1 i segs = some j → j < i + segs.length := by
  intro segs
  induction segs with
  | nil => intro i j h; simp [ftsLoop1] at h
  | cons seg rest ih =>
    intro i j h
    simp only [ftsLoop1] at h
    simp only [List.length_cons]
    split_ifs at h with h1 h2
    · simp only [Option.some_inj] at h
      omega
    · simp only [Option.some_inj] at h
      omega
    · have := ih (i + 1) j h
      omega

theorem ftsLoop2_lt : ∀ (segs : List Segment) (i j : ℕ),
    ftsLoop2 i segs = some j → j < i + segs.length := by
  intro segs
  induction segs with
  | nil => intro i j h; simp [ftsLoop2] at h
  | cons seg rest ih =>
    intro i j h
    simp only [ftsLoop2] at h
    simp only [List.length_cons]
    split_ifs at h with h1
    · simp only [Option.some_inj] at h
      omega
    · have := ih (i + 1) j h
      omega

theorem fts_lt_length (segments : List Segment) (hne : segments ≠ []) :
    find_teaching_start segments < segments.length := by
  rw [find_teaching_start]
  cases h1 : ftsLoop1 0 segments with
  | some j => simpa using ftsLoop1_lt segments 0 j h1
  | none =>
    cases h2 : ftsLoop2 0 segments with
    | some j => simpa using ftsLoop2_lt segments 0 j h2
    | none =>
      simp only []
      cases segments with
      | nil => exact absurd rfl hne
      | cons s rest => simp

theorem endScan_le (teaching : List Segment) : endScan teaching ≤ teaching.length := by
  rw [endScan]
  cases h : (((List.range teaching.length).drop (teaching.length - 19)).reverse).find?
      (fun i => hasClosing (((teaching.get? i).map Segment.text).getD "")) with
  | some i =>
    have hm := List.mem_of_find?_eq_some h
    have : i ∈ List.range teaching.length :=
      List.drop_subset _ _ (List.mem_reverse.mp hm)
    simpa using le_of_lt (List.mem_range.mp this)
  | none => simp

theorem ftsLoop1_none (segs : List Segment)
    (h : ∀ s ∈ segs, teachingSearch s.text = false ∧ s.start_sec ≤ 60) :
    ∀ i, ftsLoop1 i segs = none := by
  induction segs with
  | nil => intro i; rfl
  | cons seg rest ih =>
    intro i
    have hs := h seg (List.mem_cons_self seg rest)
    rw [ftsLoop1, if_neg (by simp [hs.1]), if_neg ?_]
    · exact ih (fun s hsm => h s (List.mem_cons_of_mem seg hsm)) (i + 1)
    · rintro ⟨h120, -⟩
      have := hs.2
      linarith

theorem ftsLoop2_none (segs : List Segment)
    (h : ∀ s ∈ segs, s.start_sec ≤ 60) :
    ∀ i, ftsLoop2 i segs = none := by
  induction segs with
  | nil => intro i; rfl
  | cons seg rest ih =>
    intro i
    rw [ftsLoop2, if_neg ?_]
    · exact ih (fun s hsm => h s (List.mem_cons_of_mem seg hsm)) (i + 1)
    · rintro ⟨h60, -⟩
      have := h seg (List.mem_cons_self seg rest)
      linarith

theorem endScan_none (teaching : List Segment)
    (h : ∀ s ∈ teaching, hasClosing s.text = false) :
    endScan teaching = teaching.length := by
  rw [endScan]
  have hfind : (((List.range teaching.length).drop (teaching.length - 19)).reverse).find?
      (fun i => hasClosing (((teaching.get? i).map Segment.text).getD "")) = none := by
    rw [List.find?_eq_none]
    intro i hi
    have hirange : i ∈ List.range teaching.length :=
      List.drop_subset _ _ (List.mem_reverse.mp hi)
    have hilt : i < teaching.length := List.mem_range.mp hirange
    have hget : teaching.get? i = some (teaching.get ⟨i, hilt⟩) := List.get?_eq_get hilt
    rw [hget]
    simp only [Option.map_some, Option.getD_some, Bool.not_eq_true]
    exact h _ (List.get_mem teaching i hilt)
  rw [hfind]
  simp

/-! ## Claim theorems: teaching-span detector (C4) -/

/-- C4 (amended): for non-empty input the detector's start index stays at
or before its end index (and both stay within the segment list); and the
full sequence is returned unchanged when no teaching-start, closing or
worship pattern matches — provided additionally that no segment passes the
time/length fallbacks (`start_sec ≤ 60`), every segment has at least 3
words and no segment is a bare music/applause marker.  The unamended
no-pattern clause is refuted by `teaching_span_fallback_cex`. -/
theorem teaching_span_amended (segments : List Segment) (hne : segments ≠ []) :
    (find_teaching_start segments ≤
        find_teaching_start segments + endScan (segments.drop (find_teaching_start segments)) ∧
      find_teaching_start segments < segments.length ∧
      find_teaching_start segments + endScan (segments.drop (find_teaching_start segments)) ≤
        segments.length) ∧
    ((∀ s ∈ segments, teachingSearch s.text = false ∧ worshipSearch s.text = false ∧
        hasClosing s.text = false ∧ s.start_sec ≤ 60 ∧ 3 ≤ wordCount s.text ∧
        pyStrip s.text ≠ "[Music]" ∧ pyStrip s.text ≠ "[Applause]") →
      filter_segments segments = segments) := by
  constructor
  · refine ⟨Nat.le_add_right _ _, fts_lt_length segments hne, ?_⟩
    have h1 := endScan_le (segments.drop (find_teaching_start segments))
    have h2 := fts_lt_length segments hne
    rw [List.length_drop] at h1
    omega
  · intro h
    have hfts : find_teaching_start segments = 0 := by
      rw [find_teaching_start,
        ftsLoop1_none segments (fun s hs => ⟨(h s hs).1, (h s hs).2.2.2.1⟩) 0,
        ftsLoop2_none segments (fun s hs => (h s hs).2.2.2.1) 0]
    rw [filter_segments, if_neg hne]
    simp only [hfts, List.drop_zero]
    rw [endScan_none segments (fun s hs => (h s hs).2.2.1), List.take_length]
    rw [List.filter_eq_self]
    intro s hs
    rcases h s hs with ⟨-, hworship, -, -, hwc, hmus, happ⟩
    have hwa : is_worship_or_announcement s.text = false := by
      rw [is_worship_or_announcement, if_neg (by omega), hworship]
    simp [keepSegment, hmus, happ, hwa]

/-- C4 counterexample: two segments with no teaching-start, worship or
closing pattern anywhere, yet the time/length fallback starts the span at
index 1 and drops the first segment. -/
theorem teaching_span_fallback_cex :
    (segsC4.all fun s =>
        !teachingSearch s.text && !worshipSearch s.text && !hasClosing s.text) = true ∧
    filter_segments segsC4 ≠ segsC4 := by
  exact ⟨by decide, by decide⟩

/-- C4 witness: a single early pattern-free segment is returned unchanged. -/
theorem teaching_span_amended_witness :
    segsW4 ≠ [] ∧ filter_segments segsW4 = segsW4 :=
  ⟨by decide, (teaching_span_amended segsW4 (by decide)).2 (by decide)⟩

/-! ## Helper lemmas: stable descending sort and rerank scoring -/

/-- Descending order on `rerank_score`. -/
def scoreGe (a b : Cand) : Prop := b.rerank_score ≤ a.rerank_score

theorem insertDesc_perm (c : Cand) : ∀ l : List Cand, List.Perm (insertDesc c l) (c :: l) := by
  intro l
  induction l with
  | nil => exact List.Perm.refl _
  | cons d t ih =>
    rw [insertDesc]
    split_ifs with h
    · exact List.Perm.refl _
    · exact (List.Perm.cons d ih).trans (List.Perm.swap c d t)

theorem sortDesc_perm : ∀ l : List Cand, List.Perm (sortDesc l) l := by
  intro l
  induction l with
  | nil => exact List.Perm.refl _
  | cons c t ih => exact (insertDesc_perm c (sortDesc t)).trans (List.Perm.cons c ih)

theorem insertDesc_chain (c : Cand) :
    ∀ l : List Cand, List.Chain' scoreGe l → List.Chain' scoreGe (insertDesc c l) := by
  intro l
  induction l with
  | nil => intro _; simp [insertDesc]
  | cons d t ih =>
    intro h
    rw [insertDesc]
    have hdt := List.chain'_cons'.mp h
    split_ifs with hcd
    · exact List.chain'_cons'.mpr ⟨fun y hy => by simp at hy; subst hy; exact hcd, h⟩
    · refine List.chain'_cons'.mpr ⟨?_, ih hdt.2⟩
      intro y hy
      cases t with
      | nil =>
        simp [insertDesc] at hy
        subst hy
        exact le_of_not_ge hcd
      | cons e t' =>
        rw [insertDesc] at hy
        split_ifs at hy with hce
        · simp at hy
          subst hy
          exact le_of_not_ge hcd
        · simp at hy
          subst hy
          exact hdt.1 e rfl

theorem sortDesc_chain : ∀ l : List Cand, List.Chain' scoreGe (sortDesc l) := by
  intro l
  induction l with
  | nil => simp [sortDesc]
  | cons c t ih => exact insertDesc_chain c (sortDesc t) ih

theorem mem_zipWith {α β γ : Type} {f : α → β → γ} :
    ∀ {l1 : List α} {l2 : List β} {c : γ},
    c ∈ List.zipWith f l1 l2 → ∃ a ∈ l1, ∃ b ∈ l2, c = f a b := by
  intro l1
  induction l1 with
  | nil => intro l2 c h; simp at h
  | cons a t ih =>
    intro l2 c h
    cases l2 with
    | nil => simp at h
    | cons b t2 =>
      rw [List.zipWith_cons_cons] at h
      rcases List.mem_cons.mp h with h0 | hr
      · exact ⟨a, List.mem_cons_self a t, b, List.mem_cons_self b t2, h0⟩
      · rcases ih hr with ⟨a', ha, b', hb, hc⟩
        exact ⟨a', List.mem_cons_of_mem a ha, b', List.mem_cons_of_mem b hb, hc⟩

theorem zipWith_setScore_texts :
    ∀ (cands : List Cand) (scores : List (Option ℚ)),
    cands.length ≤ scores.length →
    (List.zipWith setScore cands scores).map (fun c => c.text) =
      cands.map (fun c => c.text) := by
  intro cands
  induction cands with
  | nil => intro scores _; simp
  | cons c t ih =>
    intro scores hlen
    cases scores with
    | nil => simp at hlen
    | cons s st =>
      rw [List.zipWith_cons_cons, List.map_cons, List.map_cons,
        ih st (by simpa using hlen)]
      have : (setScore c s).text = c.text := by
        cases s <;> simp [setScore, fallbackScore]
      rw [this]

theorem fallbackScore_text (c : Cand) : (fallbackScore c).text = c.text := rfl

theorem fallbackScore_source (c : Cand) : (fallbackScore c).source = c.source := rfl

theorem setScore_source (c : Cand) (s : Option ℚ) : (setScore c s).source = c.source := by
  cases s <;> rfl

theorem buildCands_source (st : String) :
    ∀ (hits : List RawHit) (seen : List (List Char)) (c : Cand),
    c ∈ buildCands st seen hits → c.source = st := by
  intro hits
  induction hits with
  | nil => intro seen c h; simp [buildCands] at h
  | cons h0 rest ih =>
    intro seen c h
    rw [buildCands] at h
    split_ifs at h with hseen
    · exact ih seen c h
    · rcases List.mem_cons.mp h with h0' | hr
      · subst h0'; rfl
      · exact ih _ c hr

theorem applyRerank_source (out : Option (List (Option ℚ))) (cands : List Cand)
    (st : String) (h : ∀ c ∈ cands, c.source = st) :
    ∀ c ∈ applyRerank out cands, c.source = st := by
  intro c hc
  rcases out with _ | scores
  · rcases List.mem_map.mp hc with ⟨c0, hc0, rfl⟩
    rw [fallbackScore_source]
    exact h c0 hc0
  · rw [applyRerank] at hc
    split_ifs at hc with hlen
    · rcases mem_zipWith hc with ⟨a, ha, b, -, rfl⟩
      rw [setScore_source]
      exact h a ha
    · rcases List.mem_map.mp hc with ⟨c0, hc0, rfl⟩
      rw [fallbackScore_source]
      exact h c0 hc0

theorem search_and_rerank_source (query : String) (collection : Option (List RawHit))
    (rr : RerankFn) (n_candidates n_results : ℕ) (st : String) :
    ∀ c ∈ search_and_rerank query collection rr n_candidates n_results st,
      c.source = st := by
  intro c hc
  rcases collection with _ | hits
  · simp [search_and_rerank] at hc
  · rw [search_and_rerank] at hc
    split_ifs at hc with hnil
    · simp at hc
    · have h1 : c ∈ sortDesc (applyRerank (rr (mkPairs query (buildCands st [] hits)))
          (buildCands st [] hits)) := List.take_subset _ _ hc
      have h2 := (sortDesc_perm _).mem_iff.mp h1
      exact applyRerank_source _ _ st (fun d hd => buildCands_source st hits [] d hd) c h2

/-! ## Claim theorems: candidate deduplication (C5) -/

theorem buildCands_filter_key (st : String) (k : List Char) :
    ∀ (hits : List RawHit) (seen : List (List Char)),
    (k ∈ seen →
      (buildCands st seen hits).filter (fun c => decide (dedupKey c.text = k)) = []) ∧
    (k ∉ seen →
      ((buildCands st seen hits).filter (fun c => decide (dedupKey c.text = k))).map
          (fun c => c.text) =
        ((hits.find? fun h => decide (dedupKey h.text = k)).map (fun h => h.text)).toList) := by
  intro hits
  induction hits with
  | nil => intro seen; simp [buildCands]
  | cons h0 rest ih =>
    intro seen
    rw [buildCands]
    split_ifs with hseen
    · constructor
      · intro hk
        exact (ih seen).1 hk
      · intro hk
        have hne : ¬ (dedupKey h0.text = k) := fun he => hk (he ▸ hseen)
        rw [List.find?_cons_of_neg _ (by simpa using hne)]
        exact (ih seen).2 hk
    · constructor
      · intro hk
        have hne : ¬ (dedupKey h0.text = k) := fun he => hseen (he ▸ hk)
        rw [List.filter_cons_of_neg (by simpa using hne)]
        exact (ih (dedupKey h0.text :: seen)).1 (List.mem_cons_of_mem _ hk)
      · intro hk
        by_cases he : dedupKey h0.text = k
        · rw [List.filter_cons_of_pos (by simpa using he),
            List.find?_cons_of_pos _ (by simpa using he)]
          have htail := (ih (dedupKey h0.text :: seen)).1
            (he ▸ List.mem_cons_self _ seen)
          rw [htail]
          rfl
        · rw [List.filter_cons_of_neg (by simpa using he),
            List.find?_cons_of_neg _ (by simpa using he)]
          refine (ih (dedupKey h0.text :: seen)).2 ?_
          intro hmem
          rcases List.mem_cons.mp hmem with h' | h'
          · exact he h'.symm
          · exact hk h'

/-- C5 (amended): deduplication keys on the first 200 characters of the
text (not 150): among candidates sharing one 200-character prefix, exactly
one is retained, namely the first in retrieval order.  The 150-character
version of the claim is refuted by `dedup_150_cex`. -/
theorem dedup_first_of_key (source_type : String) (hits : List RawHit) (i j : ℕ)
    (hij : i < j) (hj : j < hits.length)
    (hkey : dedupKey (hits.get ⟨i, lt_trans hij hj⟩).text =
      dedupKey (hits.get ⟨j, hj⟩).text) :
    ((buildCands source_type [] hits).filter
        (fun c => decide (dedupKey c.text = dedupKey (hits.get ⟨i, lt_trans hij hj⟩).text))).map
        (fun c => c.text) =
      ((hits.find? fun h =>
          decide (dedupKey h.text = dedupKey (hits.get ⟨i, lt_trans hij hj⟩).text)).map
        (fun h => h.text)).toList ∧
    ((buildCands source_type [] hits).filter
        (fun c => decide (dedupKey c.text = dedupKey (hits.get ⟨i, lt_trans hij hj⟩).text))).length
      = 1 := by
  have h2 := (buildCands_filter_key source_type
    (dedupKey (hits.get ⟨i, lt_trans hij hj⟩).text) hits []).2 (by simp)
  refine ⟨h2, ?_⟩
  have hfind : (hits.find? fun h =>
      decide (dedupKey h.text = dedupKey (hits.get ⟨i, lt_trans hij hj⟩).text)).isSome := by
    rw [List.find?_isSome]
    exact ⟨hits.get ⟨i, lt_trans hij hj⟩, List.get_mem _ _ _, by simp⟩
  rcases hopt : hits.find? fun h =>
      decide (dedupKey h.text = dedupKey (hits.get ⟨i, lt_trans hij hj⟩).text) with _ | h0
  · rw [hopt] at hfind; simp at hfind
  · have := congrArg List.length h2
    rw [List.length_map, hopt] at this
    simpa using this

/-- C5 counterexample: two candidates agreeing on their first 150
characters but differing at character 150 are both retained. -/
theorem dedup_150_cex :
    t150b.data.take 150 = t150c.data.take 150 ∧
    (buildCands "sermon" [] hitsC5).map (fun c => c.text) = [t150b, t150c] := by
  exact ⟨by decide, by decide⟩

/-- C5 witness: three hits whose first two share a 200-character prefix;
exactly the first is retained among them. -/
theorem dedup_first_of_key_witness :
    ((buildCands "sermon" [] hitsW5).filter
        (fun c => decide (dedupKey c.text = dedupKey "dup"))).length = 1 := by
  have h := (dedup_first_of_key "sermon" hitsW5 0 1 (by decide) (by decide) (by decide)).2
  simpa using h

/-! ## Claim theorems: NaN substitution and degraded reranking (C6) -/

/-- C6: on a non-empty candidate batch, a NaN reranker score for one item
is substituted with `1 - vector_dist` while the item stays in the scored
batch; and a reranker exception scores the whole batch by
`1 - vector_dist`, yielding the batch stably sorted by descending score,
truncated to `n_results`, never empty. -/
theorem rerank_nan_and_degraded (query source_type : String) (hits : List RawHit)
    (rr : RerankFn) (n_candidates n_results : ℕ)
    (hc : buildCands source_type [] hits ≠ []) (hn : 1 ≤ n_results) :
    (∀ (scores : List (Option ℚ))
      (hsc : rr (mkPairs query (buildCands source_type [] hits)) = some scores)
      (hlen : (buildCands source_type [] hits).length ≤ scores.length),
      ((applyRerank (some scores) (buildCands source_type [] hits)).map (fun c => c.text) =
        (buildCands source_type [] hits).map (fun c => c.text)) ∧
      (∀ (i : ℕ) (hi : i < (buildCands source_type [] hits).length),
        scores.get ⟨i, lt_of_lt_of_le hi hlen⟩ = none →
        (applyRerank (some scores) (buildCands source_type [] hits)).get? i =
          some (fallbackScore ((buildCands source_type [] hits).get ⟨i, hi⟩)) ∧
        fallbackScore ((buildCands source_type [] hits).get ⟨i, hi⟩) ∈
          sortDesc (applyRerank (some scores) (buildCands source_type [] hits)))) ∧
    (rr (mkPairs query (buildCands source_type [] hits)) = none →
      search_and_rerank query (some hits) rr n_candidates n_results source_type =
        (sortDesc ((buildCands source_type [] hits).map fallbackScore)).take n_results ∧
      List.Perm (sortDesc ((buildCands source_type [] hits).map fallbackScore))
        ((buildCands source_type [] hits).map fallbackScore) ∧
      search_and_rerank query (some hits) rr n_candidates n_results source_type ≠ [] ∧
      List.Chain' scoreGe
        (search_and_rerank query (some hits) rr n_candidates n_results source_type) ∧
      (∀ c ∈ search_and_rerank query (some hits) rr n_candidates n_results source_type,
        c.rerank_score = 1 - c.vector_dist)) := by
  constructor
  · intro scores hsc hlen
    have happ : applyRerank (some scores) (buildCands source_type [] hits) =
        List.zipWith setScore (buildCands source_type [] hits) scores := by
      rw [applyRerank, if_pos hlen]
    constructor
    · rw [happ]
      exact zipWith_setScore_texts _ _ hlen
    · intro i hi hnan
      have hzlen : i < (List.zipWith setScore (buildCands source_type [] hits) scores).length := by
        rw [List.length_zipWith]
        exact lt_min hi (lt_of_lt_of_le hi hlen)
      have hval : (List.zipWith setScore (buildCands source_type [] hits) scores).get
          ⟨i, hzlen⟩ = setScore ((buildCands source_type [] hits).get ⟨i, hi⟩)
            (scores.get ⟨i, lt_of_lt_of_le hi hlen⟩) := by
        simp [List.getElem_zipWith]
      rw [hnan] at hval
      have hget : (applyRerank (some scores) (buildCands source_type [] hits)).get? i =
          some (fallbackScore ((buildCands source_type [] hits).get ⟨i, hi⟩)) := by
        rw [happ, List.get?_eq_get hzlen, hval]
        rfl
      refine ⟨hget, ?_⟩
      have hmem : fallbackScore ((buildCands source_type [] hits).get ⟨i, hi⟩) ∈
          applyRerank (some scores) (buildCands source_type [] hits) :=
        List.get?_mem hget
      exact (sortDesc_perm _).mem_iff.mpr hmem
  · intro hrr
    have hsr : search_and_rerank query (some hits) rr n_candidates n_results source_type =
        (sortDesc ((buildCands source_type [] hits).map fallbackScore)).take n_results := by
      rw [search_and_rerank]
      simp only [if_neg hc]
      rw [hrr]
      rfl
    have hperm := sortDesc_perm ((buildCands source_type [] hits).map fallbackScore)
    refine ⟨hsr, hperm, ?_, ?_, ?_⟩
    · rw [hsr]
      intro hnil
      rcases List.take_eq_nil_iff.mp hnil with h | h
      · omega
      · have := hperm.length_eq
        rw [h] at this
        simp only [List.length_nil, List.length_map] at this
        exact hc (List.eq_nil_of_length_eq_zero this.symm)
    · rw [hsr]
      exact (sortDesc_chain _).take n_results
    · intro c hcmem
      rw [hsr] at hcmem
      have h1 : c ∈ sortDesc ((buildCands source_type [] hits).map fallbackScore) :=
        List.take_subset _ _ hcmem
      have h2 := hperm.mem_iff.mp h1
      rcases List.mem_map.mp h2 with ⟨c0, -, rfl⟩
      simp [fallbackScore]

/-- C6 witness: a two-hit batch with a failing reranker still yields a
non-empty result. -/
theorem rerank_nan_and_degraded_witness :
    buildCands "sermon" [] hitsW6 ≠ [] ∧
    search_and_rerank "q" (some hitsW6) rrFail 20 6 "sermon" ≠ [] :=
  ⟨by decide,
    ((rerank_nan_and_degraded "q" "sermon" hitsW6 rrFail 20 6 (by decide)
      (by decide)).2 rfl).2.2.1⟩

/-! ## Helper lemmas: pinned-story detection -/

/-- The invariant of the pinned accumulator: collected results are
duplicate-free by `video_id`, and every collected `video_id` is recorded
in `seen_vids`. -/
def PinnedInv (acc : List Cand × List String) : Prop :=
  (acc.1.map fun c => c.video_id).Nodup ∧ ∀ c ∈ acc.1, c.video_id ∈ acc.2

theorem addStep_inv (acc : List Cand × List String) (r : Cand)
    (h : PinnedInv acc) : PinnedInv (addStep acc r) := by
  rw [addStep]
  split_ifs with hv
  · exact h
  · constructor
    · simp only [List.map_append, List.map_cons, List.map_nil]
      rw [List.nodup_append]
      refine ⟨h.1, List.nodup_singleton _, ?_⟩
      intro v hv1 hv2
      simp only [List.mem_singleton] at hv2
      subst hv2
      rcases List.mem_map.mp hv1 with ⟨c, hc, hcv⟩
      exact hv (hcv ▸ h.2 c hc)
    · intro c hc
      rcases List.mem_append.mp hc with h1 | h1
      · exact List.mem_append_left _ (h.2 c h1)
      · simp only [List.mem_singleton] at h1
        subst h1
        exact List.mem_append_right _ (List.mem_singleton_self _)

theorem addPinned_inv : ∀ (rs : List Cand) (acc : List Cand × List String),
    PinnedInv acc → PinnedInv (addPinned acc rs) := by
  intro rs
  induction rs with
  | nil => intro acc h; exact h
  | cons r rest ih =>
    intro acc h
    show PinnedInv (addPinned (addStep acc r) rest)
    exact ih (addStep acc r) (addStep_inv acc r h)

theorem addPinned_append : ∀ (rs : List Cand) (acc : List Cand × List String),
    ∃ t, (addPinned acc rs).1 = acc.1 ++ t ∧ List.Sublist t rs := by
  intro rs
  induction rs with
  | nil => intro acc; exact ⟨[], by simp [addPinned], List.nil_sublist []⟩
  | cons r rest ih =>
    intro acc
    have hstep : addPinned acc (r :: rest) = addPinned (addStep acc r) rest := rfl
    rw [hstep, addStep]
    split_ifs with hv
    · rcases ih acc with ⟨t, h1, h2⟩
      exact ⟨t, h1, List.Sublist.cons r h2⟩
    · rcases ih (acc.1 ++ [r], acc.2 ++ [r.video_id]) with ⟨t, h1, h2⟩
      refine ⟨r :: t, ?_, List.Sublist.cons₂ r h2⟩
      rw [h1]
      simp

theorem detect_fold_inv (q : String) : ∀ (table : List (String × Story))
    (acc : List Cand × List String), PinnedInv acc →
    PinnedInv (table.foldl (detectStep q) acc) := by
  intro table
  induction table with
  | nil => intro acc h; exact h
  | cons st tbl ih =>
    intro acc h
    rw [List.foldl_cons]
    apply ih
    rw [detectStep]
    split_ifs with hm
    · exact addPinned_inv _ acc h
    · exact h

theorem detect_fold_append (q : String) : ∀ (table : List (String × Story))
    (acc : List Cand × List String),
    ∃ t, (table.foldl (detectStep q) acc).1 = acc.1 ++ t ∧
      List.Sublist t ((table.filter fun st => storyMatches q st.2).flatMap
        fun st => st.2.results) := by
  intro table
  induction table with
  | nil => intro acc; exact ⟨[], by simp, List.nil_sublist []⟩
  | cons st tbl ih =>
    intro acc
    rw [List.foldl_cons, detectStep]
    split_ifs with hm
    · rcases addPinned_append st.2.results acc with ⟨t1, h11, h12⟩
      rcases ih (addPinned acc st.2.results) with ⟨t2, h21, h22⟩
      refine ⟨t1 ++ t2, ?_, ?_⟩
      · rw [h21, h11, List.append_assoc]
      · rw [List.filter_cons_of_pos (by simpa using hm), List.flatMap_cons]
        exact List.Sublist.append h12 h22
    · rcases ih acc with ⟨t, h1, h2⟩
      refine ⟨t, h1, ?_⟩
      rw [List.filter_cons_of_neg (by simpa using hm)]
      exact h2

/-! ## Claim theorems: pinned dedup by video id (C10) -/

/-- C10: the pinned list returned by `detect_pinned_stories` is
duplicate-free by `video_id`, and is a sublist of the matched rules'
results concatenated in rule-table order (so rule-table order and
within-rule order are preserved among the entries kept). -/
theorem pinned_dedup_by_video (query : String) :
    ((detect_pinned_stories query).1.map fun c => c.video_id).Nodup ∧
    List.Sublist (detect_pinned_stories query).1
      ((PINNED_STORIES.filter fun st =>
          storyMatches (normalizeQuery query) st.2).flatMap fun st => st.2.results) := by
  constructor
  · exact (detect_fold_inv (normalizeQuery query) PINNED_STORIES ([], [])
      ⟨List.nodup_nil, by simp⟩).1
  · rcases detect_fold_append (normalizeQuery query) PINNED_STORIES ([], []) with ⟨t, h1, h2⟩
    rw [detect_pinned_stories, h1]
    simpa using h2

/-! ## Helper lemmas: the `/search` response shape -/

theorem mem_ite_nil {P : Prop} [Decidable P] {l : List Cand} {c : Cand}
    (h : c ∈ (if P then l else [])) : c ∈ l := by
  split_ifs at h with hp
  · exact h
  · simp at h

theorem searchBody_props (env : SearchEnv) (query search_type : String)
    (n_results n_candidates : ℕ) :
    (searchBody env query search_type n_results n_candidates).pinned_count =
      (detect_pinned_stories query).1.length ∧
    (searchBody env query search_type n_results n_candidates).results.take
      (detect_pinned_stories query).1.length = (detect_pinned_stories query).1 ∧
    (∀ c ∈ (searchBody env query search_type n_results n_candidates).results.drop
        (detect_pinned_stories query).1.length,
      c.source = "sermon" → c.video_id ∉ (detect_pinned_stories query).2) := by
  refine ⟨rfl, ?_, ?_⟩
  · show ((detect_pinned_stories query).1 ++ _ ++ _ ++ _).take _ = _
    rw [List.append_assoc, List.append_assoc, List.take_left]
  · show ∀ c ∈ ((detect_pinned_stories query).1 ++ _ ++ _ ++ _).drop _, _
    rw [List.append_assoc, List.append_assoc, List.drop_left]
    intro c hc hsrc
    rcases List.mem_append.mp hc with h1 | h1
    · have h2 := (List.mem_filter.mp (mem_ite_nil h1)).1
      exact of_decide_eq_true (List.mem_filter.mp h2).2
    · rcases List.mem_append.mp h1 with h2 | h2
      · have := search_and_rerank_source query env.illustration env.rr 10 3
          "illustration" c (mem_ite_nil h2)
        rw [hsrc] at this
        exact absurd this (by decide)
      · have := search_and_rerank_source query env.website env.rr 10 3
          "website" c (mem_ite_nil h2)
        rw [hsrc] at this
        exact absurd this (by decide)

theorem detect_ne_nil (query : String)
    (hmatch : (PINNED_STORIES.any fun st =>
      storyMatches (normalizeQuery query) st.2) = true) :
    (detect_pinned_stories query).1 ≠ [] := by
  by_cases m1 : storyMatches (normalizeQuery query) beckyStory
  · by_cases m2 : storyMatches (normalizeQuery query) testimonyStory
    · simp only [detect_pinned_stories, PINNED_STORIES, List.foldl_cons, List.foldl_nil,
        detectStep, m1, m2, if_true]
      decide
    · simp only [detect_pinned_stories, PINNED_STORIES, List.foldl_cons, List.foldl_nil,
        detectStep, m1, m2, if_true, if_false]
      decide
  · by_cases m2 : storyMatches (normalizeQuery query) testimonyStory
    · simp only [detect_pinned_stories, PINNED_STORIES, List.foldl_cons, List.foldl_nil,
        detectStep, m1, m2, if_true, if_false]
      decide
    · rw [PINNED_STORIES] at hmatch
      simp only [List.any_cons, List.any_nil, Bool.or_eq_true, Bool.or_false] at hmatch
      rcases hmatch with h | h
      · exact absurd h m1
      · exact absurd h m2

/-! ## Claim theorems: pinned overrides in `/search` (C3, C8) -/

/-- C3 (amended): for a query matching at least one pinned rule, the
response's first `pinned_count` entries are exactly the pinned list of
`detect_pinned_stories` (the matched rules' fixed results in rule-table
order, deduplicated by `video_id`), that list is non-empty, and no organic
sermon-pool result shares a `video_id` with a pinned entry.  Organic
illustration- and website-pool results are not deduplicated against
pinned entries; the unamended claim is refuted by
`pinned_override_ill_cex`. -/
theorem pinned_override_amended (env : SearchEnv) (query : String)
    (n_results n_candidates : ℕ)
    (hmatch : (PINNED_STORIES.any fun st =>
      storyMatches (normalizeQuery query) st.2) = true) :
    (searchBody env query "all" n_results n_candidates).results.take
        (searchBody env query "all" n_results n_candidates).pinned_count =
      (detect_pinned_stories query).1 ∧
    (detect_pinned_stories query).1 ≠ [] ∧
    (∀ c ∈ (searchBody env query "all" n_results n_candidates).results.drop
        (searchBody env query "all" n_results n_candidates).pinned_count,
      c.source = "sermon" → c.video_id ∉ (detect_pinned_stories query).2) := by
  have h := searchBody_props env query "all" n_results n_candidates
  refine ⟨?_, detect_ne_nil query hmatch, ?_⟩
  · rw [h.1]
    exact h.2.1
  · rw [h.1]
    exact h.2.2

/-- C3 counterexample: on query `"becky"` the illustration pool returns a
hit with the first pinned video id; it survives into the organic part of
the response, so an organic result shares a `video_id` with a pinned
entry. -/
theorem pinned_override_ill_cex :
    pyInB "becky" (normalizeQuery "becky") = true ∧
    ((searchBody envC3 "becky" "all" 6 20).results.take
        (searchBody envC3 "becky" "all" 6 20).pinned_count).map (fun c => c.video_id) =
      ["sGIJP13TxPQ", "BRd6nCCTLKI"] ∧
    ((searchBody envC3 "becky" "all" 6 20).results.drop
        (searchBody envC3 "becky" "all" 6 20).pinned_count).map (fun c => c.video_id) =
      ["sGIJP13TxPQ"] := by
  exact ⟨by decide, by decide, by decide⟩

/-- C3 witness: query `"becky"` matches the becky rule and yields a
non-empty pinned list placed first. -/
theorem pinned_override_amended_witness :
    (PINNED_STORIES.any fun st => storyMatches (normalizeQuery "becky") st.2) = true ∧
    (detect_pinned_stories "becky").1 ≠ [] :=
  ⟨by decide, (pinned_override_amended {} "becky" 6 20 (by decide)).2.1⟩

/-- C8 (amended): pinned results always occupy the leading positions of
the response — they are prepended ahead of every organic result for every
reranker behaviour, so they are never outranked positionally.  Their
stored `rerank_score` values are, however, not an upper bound on the
scores the reranker can assign to organic candidates, as
`pinned_score_not_maximal_cex` shows. -/
theorem pinned_always_first (env : SearchEnv) (query search_type : String)
    (n_results n_candidates : ℕ) :
    (searchBody env query search_type n_results n_candidates).results.take
        (searchBody env query search_type n_results n_candidates).pinned_count =
      (detect_pinned_stories query).1 ∧
    (searchBody env query search_type n_results n_candidates).pinned_count =
      (detect_pinned_stories query).1.length := by
  have h := searchBody_props env query search_type n_results n_candidates
  exact ⟨by rw [h.1]; exact h.2.1, h.1⟩

/-- C8 counterexample: a reranker score of 0.99 on an organic sermon
candidate exceeds the 0.95 `rerank_score` of the second pinned becky
result, so pinned scores are not maximal. -/
theorem pinned_score_not_maximal_cex :
    ((searchBody envC8 "becky" "all" 6 20).results.map fun c => c.rerank_score) =
      [1, mkRat 19 20, mkRat 99 100] ∧ mkRat 19 20 < mkRat 99 100 := by
  exact ⟨by decide, by decide⟩

end APB
